import Mathlib

/-!
Shallow embedding of the Business-Analyst job-listings dashboard pipeline
(src/app.py): loading/normalization, facet filtering, and the aggregation
menu. Python floats are modelled as rationals; pandas missing values (NaN)
are modelled with Option (for typed columns) or an explicit PyVal
constructor (for raw, untyped cells).
-/

namespace BAJobs

/-- A raw pandas cell value for the untyped columns (easy_apply, founded):
either missing (NaN), a boolean, an integer, or a string. -/
inductive PyVal where
  | vNaN : PyVal
  | vBool : Bool → PyVal
  | vInt : Int → PyVal
  | vStr : String → PyVal
  deriving DecidableEq, Repr

/-- Model of re.sub applied with pattern "\n.*" and empty replacement:
scanning left to right, each newline together with the rest of its line
(up to but not including the next newline) is deleted. -/
def subNlRest : List Char → List Char
  | [] => []
  | c :: cs =>
    if c = '\n' then subNlRest (cs.dropWhile (fun d => decide (d ≠ '\n')))
    else c :: subNlRest cs
termination_by l => l.length
decreasing_by
  · simp only [List.length_cons]
    exact Nat.lt_succ_of_le (List.dropWhile_sublist _).length_le
  · simp

/-- Company-name cleaning from load_data:
df["company_name"].str.replace(r"\n.*", "", regex=True). -/
def cleanCompanyName (s : String) : String := String.mk (subNlRest s.data)

/-- Model of re.findall applied with pattern "\d+": the maximal runs of
decimal digits of the string, in left-to-right order. -/
def digitRuns : List Char → List (List Char)
  | [] => []
  | c :: cs =>
    if c.isDigit then
      (c :: cs.takeWhile Char.isDigit) :: digitRuns (cs.dropWhile Char.isDigit)
    else
      digitRuns cs
termination_by l => l.length
decreasing_by
  · simp only [List.length_cons]
    exact Nat.lt_succ_of_le (List.dropWhile_sublist _).length_le
  · simp

/-- Model of Python int on a nonempty string of decimal digits. -/
def digitsToNat (ds : List Char) : Nat :=
  ds.foldl (fun a c => 10 * a + (c.toNat - 48)) 0

/-- The integers extracted from a salary string:
[int(n) for n in re.findall(r"\d+", s)]. -/
def extractNums (s : String) : List Nat :=
  (digitRuns s.data).map digitsToNat

/-- parse_salary from load_data: NaN for a missing input, otherwise the
arithmetic mean (np.mean, modelled over the rationals) of the extracted
integers, or NaN when none are found. -/
def parse_salary : Option String → Option ℚ
  | none => none
  | some s =>
    let nums := extractNums s
    if nums.isEmpty then none
    else some ((nums.map (fun n => (n : ℚ))).sum / (nums.length : ℚ))

/-- easy_apply normalization from load_data:
df["easy_apply"].replace(-1, False). -/
def easyApplyNorm (v : PyVal) : PyVal :=
  if v = PyVal.vInt (-1) then PyVal.vBool false else v

/-- founded normalization from load_data:
df["founded"].replace(-1, np.nan). -/
def foundedNorm (v : PyVal) : PyVal :=
  if v = PyVal.vInt (-1) then PyVal.vNaN else v

/-- One row of the raw CSV, after header normalization, restricted to the
columns the pipeline touches. -/
structure RawRow where
  job_title : Option String
  company_name : Option String
  location : Option String
  industry : Option String
  sector : Option String
  type_of_ownership : Option String
  founded : PyVal
  easy_apply : PyVal
  salary_estimate : Option String
  rating : Option ℚ
  deriving DecidableEq, Repr

/-- One row of the canonical table produced by load_data. -/
structure Row where
  job_title : Option String
  company_name : Option String
  location : Option String
  industry : Option String
  sector : Option String
  type_of_ownership : Option String
  founded : PyVal
  easy_apply : PyVal
  salary_estimate : Option String
  rating : Option ℚ
  avg_salary_k : Option ℚ
  deriving DecidableEq, Repr

/-- The per-row effect of load_data: clean the company name, normalize the
sentinels, and derive avg_salary_k from salary_estimate. -/
def normalizeRow (q : RawRow) : Row where
  job_title := q.job_title
  company_name := q.company_name.map cleanCompanyName
  location := q.location
  industry := q.industry
  sector := q.sector
  type_of_ownership := q.type_of_ownership
  founded := foundedNorm q.founded
  easy_apply := easyApplyNorm q.easy_apply
  salary_estimate := q.salary_estimate
  rating := q.rating
  avg_salary_k := parse_salary q.salary_estimate

/-- load_data, minus the file read: the canonical table as a pure function
of the raw rows. -/
def load_data (raw : List RawRow) : List Row := raw.map normalizeRow

/-- pandas Series.isin on one cell: a missing value is never in the
selected set, a present value is tested for list membership. The selected
sets come from multiselect widgets over dropna().unique(), so they hold
plain strings. -/
def memOpt (o : Option String) (sel : List String) : Bool :=
  match o with
  | none => false
  | some s => sel.contains s

/-- The sidebar filter pipeline: start from the full table and narrow by
each facet whose selection is non-empty (Python truthiness of the list),
using isin semantics. -/
def filtered_df (df : List Row) (location industry ownership : List String) :
    List Row :=
  let d1 := if location.isEmpty then df
            else df.filter (fun r => memOpt r.location location)
  let d2 := if industry.isEmpty then d1
            else d1.filter (fun r => memOpt r.industry industry)
  if ownership.isEmpty then d2
  else d2.filter (fun r => memOpt r.type_of_ownership ownership)

/-- Insert a labelled count into a list sorted by count descending, going
before the first entry whose count is not larger; later-inserted entries
with an equal count stay behind, so the overall sort is stable. -/
def insertByCount {α : Type} (p : α × Nat) :
    List (α × Nat) → List (α × Nat)
  | [] => [p]
  | q :: rest => if q.2 ≤ p.2 then p :: q :: rest else q :: insertByCount p rest

/-- Stable sort of labelled counts by count descending, modelling the
sort pandas value_counts applies to the per-key counts. -/
def sortByCountDesc {α : Type} : List (α × Nat) → List (α × Nat)
  | [] => []
  | p :: rest => insertByCount p (sortByCountDesc rest)

/-- The distinct values of a list in order of first appearance, modelling
the key order of the pandas hash table behind value_counts and nunique. -/
def firstAppearanceKeys {α : Type} [DecidableEq α] : List α → List α
  | [] => []
  | a :: rest => a :: firstAppearanceKeys (rest.filter (fun b => decide (b ≠ a)))
termination_by l => l.length
decreasing_by
  simp only [List.length_cons]
  exact Nat.lt_succ_of_le (List.length_filter_le _ _)

/-- pandas Series.value_counts with the default dropna=True: drop missing
cells, count each distinct present value (keys in first-appearance order),
and sort by count descending. -/
def value_counts {α : Type} [DecidableEq α] (col : List (Option α)) :
    List (α × Nat) :=
  let present := col.filterMap id
  sortByCountDesc ((firstAppearanceKeys present).map (fun k => (k, present.count k)))

/-- pandas Series.nunique with the default dropna=True: the number of
distinct present values. -/
def nunique {α : Type} [DecidableEq α] (col : List (Option α)) : Nat :=
  (firstAppearanceKeys (col.filterMap id)).length

/-- pandas Series.mean with the default skipna=True, over a rational
column: NaN (modelled as none) when no value is present, otherwise the
arithmetic mean of the present values. -/
def seriesMean (col : List (Option ℚ)) : Option ℚ :=
  let present := col.filterMap id
  if present.isEmpty then none
  else some (present.sum / (present.length : ℚ))

/-- Round half to even on an exact rational, modelling Python round on the
(here exactly represented) float value. -/
def roundHalfEven (x : ℚ) : ℤ :=
  if x - (⌊x⌋ : ℚ) < 1 / 2 then ⌊x⌋
  else if (1 : ℚ) / 2 < x - (⌊x⌋ : ℚ) then ⌊x⌋ + 1
  else if ⌊x⌋ % 2 = 0 then ⌊x⌋ else ⌊x⌋ + 1

/-- Python round(x, 2). -/
def round2 (x : ℚ) : ℚ := (roundHalfEven (100 * x) : ℚ) / 100

/-- KPI: Total Jobs, len(filtered_df). -/
def totalJobs (t : List Row) : Nat := t.length

/-- KPI: Companies, filtered_df["company_name"].nunique(). -/
def companiesMetric (t : List Row) : Nat := nunique (t.map Row.company_name)

/-- KPI: Locations, filtered_df["location"].nunique(). -/
def locationsMetric (t : List Row) : Nat := nunique (t.map Row.location)

/-- KPI: Avg Rating, round(filtered_df["rating"].mean(), 2); none models
the NaN shown when no rating is present. -/
def avgRatingMetric (t : List Row) : Option ℚ :=
  (seriesMean (t.map Row.rating)).map round2

/-- Jobs-by-location table: filtered_df["location"].value_counts(). -/
def loc_df (t : List Row) : List (String × Nat) :=
  value_counts (t.map Row.location)

/-- Top-companies table:
filtered_df["company_name"].value_counts().head(10). -/
def comp_df (t : List Row) : List (String × Nat) :=
  (value_counts (t.map Row.company_name)).take 10

/-- Top-job-titles table: filtered_df["job_title"].value_counts().head(10). -/
def title_df (t : List Row) : List (String × Nat) :=
  (value_counts (t.map Row.job_title)).take 10

/-- The salary histogram input:
filtered_df.dropna(subset=["avg_salary_k"]). -/
def salary_df (t : List Row) : List Row :=
  t.filter (fun r => r.avg_salary_k.isSome)

/-- A raw easy_apply cell as an optional value: NaN is missing, anything
else is present. -/
def pyValToOpt (v : PyVal) : Option PyVal :=
  if v = PyVal.vNaN then none else some v

/-- Easy-apply breakdown: filtered_df["easy_apply"].value_counts(). -/
def easy_df (t : List Row) : List (PyVal × Nat) :=
  value_counts ((t.map Row.easy_apply).map pyValToOpt)

/-- The column handed to the industry pie chart: px.pie receives the
filtered table and reads its industry column. -/
def industryColumn (t : List Row) : List (Option String) :=
  t.map Row.industry

/-- The column handed to the sector pie chart. -/
def sectorColumn (t : List Row) : List (Option String) :=
  t.map Row.sector

/-- An all-missing raw row, the base for the concrete tables below. -/
def blankRaw : RawRow where
  job_title := none
  company_name := none
  location := none
  industry := none
  sector := none
  type_of_ownership := none
  founded := PyVal.vNaN
  easy_apply := PyVal.vNaN
  salary_estimate := none
  rating := none

/-- An all-missing canonical row, the base for the concrete tables below. -/
def blankRow : Row where
  job_title := none
  company_name := none
  location := none
  industry := none
  sector := none
  type_of_ownership := none
  founded := PyVal.vNaN
  easy_apply := PyVal.vNaN
  salary_estimate := none
  rating := none
  avg_salary_k := none

/-- A raw row with a salary estimate, for exercising the derivation. -/
def salaryRaw : RawRow := { blankRaw with salary_estimate := some "$40K-$60K" }

/-- A raw row whose easy_apply cell is the string "True". -/
def easyRawTrue : RawRow := { blankRaw with easy_apply := PyVal.vStr "True" }

/-- A canonical row located in NY at company B. -/
def rowNY : Row := { blankRow with location := some "NY", company_name := some "B" }

/-- A canonical row located in LA at company A. -/
def rowLA : Row := { blankRow with location := some "LA", company_name := some "A" }

/-- A two-row table whose companies tie on count, with the label-descending
one first. -/
def tieTable : List Row :=
  [{ blankRow with company_name := some "B" },
   { blankRow with company_name := some "A" }]

/-- Eleven distinct company labels. -/
def elevenCompanies : List String :=
  ["C01", "C02", "C03", "C04", "C05", "C06", "C07", "C08", "C09", "C10", "C11"]

/-- A table with eleven distinct companies, one row each. -/
def bigTable : List Row :=
  elevenCompanies.map (fun n => { blankRow with company_name := some n })

/-- A three-row table with ratings 1, 2, 2. -/
def ratingTable : List Row :=
  [{ blankRow with rating := some 1 },
   { blankRow with rating := some 2 },
   { blankRow with rating := some 2 }]

/-- A table with one present and one absent location. -/
def locTable : List Row := [{ blankRow with location := some "NY" }, blankRow]

/-- The ordering the specification prescribes for the top-10 tables: count
strictly descending, ties broken by label strictly ascending in the
lexicographic character order underlying String comparison (the labels in
one table are pairwise distinct). -/
def countThenLabelLT (p q : String × Nat) : Prop :=
  q.2 < p.2 ∨ (q.2 = p.2 ∧ p.1.data < q.1.data)

lemma mem_insertByCount {α : Type} {p x : α × Nat} {l : List (α × Nat)}
    (h : x ∈ insertByCount p l) : x = p ∨ x ∈ l := by
  induction l with
  | nil =>
    simp only [insertByCount, List.mem_singleton] at h
    exact Or.inl h
  | cons q rest ih =>
    by_cases hq : q.2 ≤ p.2
    · simp only [insertByCount, if_pos hq, List.mem_cons] at h
      rcases h with h | h | h
      · exact Or.inl h
      · exact Or.inr (by simp [h])
      · exact Or.inr (by simp [h])
    · simp only [insertByCount, if_neg hq, List.mem_cons] at h
      rcases h with h | h
      · exact Or.inr (by simp [h])
      · rcases ih h with h1 | h1
        · exact Or.inl h1
        · exact Or.inr (by simp [h1])

lemma pairwise_insertByCount {α : Type} (p : α × Nat) {l : List (α × Nat)}
    (h : List.Pairwise (fun a b => b.2 ≤ a.2) l) :
    List.Pairwise (fun a b => b.2 ≤ a.2) (insertByCount p l) := by
  induction l with
  | nil => simp [insertByCount]
  | cons q rest ih =>
    rcases List.pairwise_cons.mp h with ⟨hq, hrest⟩
    by_cases hle : q.2 ≤ p.2
    · simp only [insertByCount, if_pos hle]
      refine List.pairwise_cons.mpr ⟨?_, h⟩
      intro x hx
      rcases List.mem_cons.mp hx with rfl | hx
      · exact hle
      · exact le_trans (hq x hx) hle
    · simp only [insertByCount, if_neg hle]
      refine List.pairwise_cons.mpr ⟨?_, ih hrest⟩
      intro x hx
      rcases mem_insertByCount hx with rfl | hx
      · exact Nat.le_of_lt (Nat.lt_of_not_le hle)
      · exact hq x hx

lemma pairwise_sortByCountDesc {α : Type} (l : List (α × Nat)) :
    List.Pairwise (fun a b => b.2 ≤ a.2) (sortByCountDesc l) := by
  induction l with
  | nil => simp [sortByCountDesc]
  | cons p rest ih => exact pairwise_insertByCount p ih

lemma insertByCount_perm {α : Type} (p : α × Nat) (l : List (α × Nat)) :
    List.Perm (insertByCount p l) (p :: l) := by
  induction l with
  | nil => simp [insertByCount]
  | cons q rest ih =>
    by_cases hle : q.2 ≤ p.2
    · simp [insertByCount, hle]
    · simp only [insertByCount, if_neg hle]
      exact (ih.cons q).trans (List.Perm.swap p q rest)

lemma sortByCountDesc_perm {α : Type} (l : List (α × Nat)) :
    List.Perm (sortByCountDesc l) l := by
  induction l with
  | nil => simp [sortByCountDesc]
  | cons p rest ih =>
    exact (insertByCount_perm p (sortByCountDesc rest)).trans (ih.cons p)

lemma filter_count_insertByCount {α : Type} (p : α × Nat) (m : List (α × Nat))
    (c : Nat) :
    (insertByCount p m).filter (fun q => decide (q.2 = c)) =
      (p :: m).filter (fun q => decide (q.2 = c)) := by
  induction m with
  | nil => simp [insertByCount]
  | cons q rest ih =>
    by_cases hle : q.2 ≤ p.2
    · simp only [insertByCount, if_pos hle]
    · simp only [insertByCount, if_neg hle]
      by_cases hq : q.2 = c
      · have hpc : ¬ p.2 = c := by omega
        rw [List.filter_cons_of_pos (by simp [hq]), ih,
          List.filter_cons_of_neg (by simp [hpc]),
          List.filter_cons_of_neg (by simp [hpc]),
          List.filter_cons_of_pos (by simp [hq])]
      · rw [List.filter_cons_of_neg (by simp [hq]), ih]
        by_cases hpc : p.2 = c
        · rw [List.filter_cons_of_pos (by simp [hpc]),
            List.filter_cons_of_pos (by simp [hpc]),
            List.filter_cons_of_neg (by simp [hq])]
        · rw [List.filter_cons_of_neg (by simp [hpc]),
            List.filter_cons_of_neg (by simp [hpc]),
            List.filter_cons_of_neg (by simp [hq])]

lemma filter_count_sortByCountDesc {α : Type} (l : List (α × Nat)) (c : Nat) :
    (sortByCountDesc l).filter (fun q => decide (q.2 = c)) =
      l.filter (fun q => decide (q.2 = c)) := by
  induction l with
  | nil => rfl
  | cons p rest ih =>
    rw [sortByCountDesc, filter_count_insertByCount, List.filter_cons,
      List.filter_cons, ih]

lemma value_counts_stable {α : Type} [DecidableEq α] (col : List (Option α))
    (c : Nat) :
    (value_counts col).filter (fun q => decide (q.2 = c)) =
      ((firstAppearanceKeys (col.filterMap id)).map
        (fun k => (k, (col.filterMap id).count k))).filter
        (fun q => decide (q.2 = c)) := by
  simp only [value_counts]
  exact filter_count_sortByCountDesc _ c

lemma mem_of_mem_firstAppearanceKeys {α : Type} [DecidableEq α] :
    ∀ {l : List α} {x : α}, x ∈ firstAppearanceKeys l → x ∈ l := by
  intro l
  induction l using firstAppearanceKeys.induct with
  | case1 => intro x h; simp [firstAppearanceKeys] at h
  | case2 a rest ih =>
    intro x h
    rw [firstAppearanceKeys] at h
    rcases List.mem_cons.mp h with rfl | h
    · exact List.mem_cons_self _ _
    · exact List.mem_cons_of_mem _ (List.mem_filter.mp (ih h)).1

lemma count_add_filter_ne_length {α : Type} [DecidableEq α] (a : α) (l : List α) :
    l.count a + (l.filter (fun b => decide (b ≠ a))).length = l.length := by
  induction l with
  | nil => simp
  | cons b bs ih =>
    by_cases hb : b = a
    · subst hb
      rw [List.count_cons_self]
      have hdrop :
          List.filter (fun x => decide (x ≠ b)) (b :: bs) =
            List.filter (fun x => decide (x ≠ b)) bs := by
        simp
      rw [hdrop, List.length_cons]
      omega
    · have hab : a ≠ b := fun h => hb h.symm
      rw [List.count_cons_of_ne hab,
        List.filter_cons_of_pos (by simpa using hb), List.length_cons,
        List.length_cons]
      omega

lemma sum_counts_firstAppearanceKeys {α : Type} [DecidableEq α] :
    ∀ l : List α, ((firstAppearanceKeys l).map (fun k => l.count k)).sum = l.length := by
  intro l
  induction l using firstAppearanceKeys.induct with
  | case1 => simp [firstAppearanceKeys]
  | case2 a rest ih =>
    rw [firstAppearanceKeys]
    simp only [List.map_cons, List.sum_cons, List.count_cons_self]
    have hmap :
        (firstAppearanceKeys (rest.filter (fun b => decide (b ≠ a)))).map
            (fun k => (a :: rest).count k) =
        (firstAppearanceKeys (rest.filter (fun b => decide (b ≠ a)))).map
            (fun k => (rest.filter (fun b => decide (b ≠ a))).count k) := by
      apply List.map_congr_left
      intro k hk
      have hkm := mem_of_mem_firstAppearanceKeys hk
      have hka : k ≠ a := by
        have := (List.mem_filter.mp hkm).2
        simpa using this
      rw [List.count_cons_of_ne hka, List.count_filter (by simpa using hka)]
    rw [hmap, ih]
    have hsum := count_add_filter_ne_length a rest
    rw [List.length_cons]
    omega

lemma takeWhile_dropWhile_ne_nl (cs : List Char) :
    (cs.dropWhile (fun d => decide (d ≠ '\n'))).takeWhile (fun d => decide (d ≠ '\n')) = [] := by
  induction cs with
  | nil => simp
  | cons a as ih =>
    by_cases ha : a = '\n'
    · subst ha
      simp [List.dropWhile_cons, List.takeWhile_cons]
    · simp only [List.dropWhile_cons]
      rw [if_pos (by simpa using ha)]
      exact ih

lemma subNlRest_eq_takeWhile :
    ∀ l : List Char, subNlRest l = l.takeWhile (fun c => decide (c ≠ '\n')) := by
  intro l
  induction l using subNlRest.induct with
  | case1 => simp [subNlRest]
  | case2 cs ih =>
    rw [subNlRest, if_pos rfl, ih, List.takeWhile_cons]
    rw [if_neg (by simp)]
    exact takeWhile_dropWhile_ne_nl cs
  | case3 c cs h ih =>
    rw [subNlRest, if_neg h, ih, List.takeWhile_cons, if_pos (by simpa using h)]

lemma takeWhile_eq_self_of_forall {α : Type} (p : α → Bool) :
    ∀ l : List α, (∀ c ∈ l, p c = true) → l.takeWhile p = l := by
  intro l h
  induction l with
  | nil => rfl
  | cons a as ih =>
    rw [List.takeWhile_cons, if_pos (h a (List.mem_cons_self _ _))]
    rw [ih (fun c hc => h c (List.mem_cons_of_mem _ hc))]

lemma digitRuns_eq_nil_iff :
    ∀ l : List Char, digitRuns l = [] ↔ ∀ c ∈ l, c.isDigit = false := by
  intro l
  induction l using digitRuns.induct with
  | case1 => simp [digitRuns]
  | case2 c cs h ih =>
    rw [digitRuns, if_pos h]
    simp [h]
  | case3 c cs h ih =>
    rw [digitRuns, if_neg h, ih]
    constructor
    · intro hall d hd
      rcases List.mem_cons.mp hd with rfl | hd
      · exact Bool.not_eq_true _ |>.mp h
      · exact hall d hd
    · intro hall d hd
      exact hall d (List.mem_cons_of_mem _ hd)

lemma extractNums_eq_nil_iff (s : String) :
    extractNums s = [] ↔ ∀ c ∈ s.data, c.isDigit = false := by
  rw [extractNums, List.map_eq_nil_iff]
  exact digitRuns_eq_nil_iff s.data

lemma stage_mem {α : Type} {t : List α} {sel : List String} {p : α → Bool} {r : α}
    (h : r ∈ (if sel.isEmpty then t else t.filter p)) :
    r ∈ t ∧ (sel ≠ [] → p r = true) := by
  cases sel with
  | nil =>
    simp only [List.isEmpty_nil, if_true] at h
    exact ⟨h, fun hne => absurd rfl hne⟩
  | cons a as =>
    rw [if_neg (by simp)] at h
    rcases List.mem_filter.mp h with ⟨h1, h2⟩
    exact ⟨h1, fun _ => h2⟩

lemma stage_sublist {α : Type} (t : List α) (sel : List String) (p : α → Bool) :
    List.Sublist (if sel.isEmpty then t else t.filter p) t := by
  cases sel with
  | nil =>
    simp only [List.isEmpty_nil, if_true]
    exact List.Sublist.refl t
  | cons a as =>
    rw [if_neg (by simp)]
    exact List.filter_sublist t

lemma pairwise_value_counts {α : Type} [DecidableEq α] (col : List (Option α)) :
    List.Pairwise (fun p q : α × Nat => q.2 ≤ p.2) (value_counts col) :=
  pairwise_sortByCountDesc _

lemma top_of_value_counts {α : Type} [DecidableEq α] (col : List (Option α)) :
    List.Pairwise (fun p q : α × Nat => q.2 ≤ p.2) ((value_counts col).take 10) ∧
    ((value_counts col).take 10).length ≤ 10 ∧
    ∀ p ∈ (value_counts col).drop 10, ∀ q ∈ (value_counts col).take 10, p.2 ≤ q.2 := by
  have hp := pairwise_value_counts col
  refine ⟨List.Pairwise.sublist (List.take_sublist _ _) hp, ?_, ?_⟩
  · rw [List.length_take]
    exact min_le_left _ _
  · intro p hpd q hqt
    have h2 : List.Pairwise (fun p q : α × Nat => q.2 ≤ p.2)
        ((value_counts col).take 10 ++ (value_counts col).drop 10) := by
      rw [List.take_append_drop]
      exact hp
    exact (List.pairwise_append.mp h2).2.2 q hqt p hpd

lemma value_counts_perm_keys {α : Type} [DecidableEq α] (col : List (Option α)) :
    List.Perm (value_counts col)
      ((firstAppearanceKeys (col.filterMap id)).map
        (fun k => (k, (col.filterMap id).count k))) :=
  sortByCountDesc_perm _

lemma parse_salary_isSome_iff (o : Option String) :
    (parse_salary o).isSome = true ↔
      ∃ s, o = some s ∧ s.data.any Char.isDigit = true := by
  cases o with
  | none => simp [parse_salary]
  | some s =>
    have hiff : extractNums s ≠ [] ↔ s.data.any Char.isDigit = true := by
      rw [ne_eq, extractNums_eq_nil_iff]
      push_neg
      simp [List.any_eq_true]
    by_cases hne : extractNums s = []
    · rw [parse_salary]
      rw [if_pos (by simpa using congrArg List.isEmpty hne)]
      simp only [Option.isSome_none, Bool.false_eq_true, false_iff]
      rintro ⟨s2, hs2, hany⟩
      cases Option.some.inj hs2
      exact absurd hne (hiff.mpr hany)
    · rw [parse_salary]
      rw [if_neg (by simpa [List.isEmpty_iff] using hne)]
      simp only [Option.isSome_some, true_iff]
      exact ⟨s, rfl, hiff.mp hne⟩

/-- C1: salary parsing maps an absent input to absent; otherwise the
maximal decimal-digit runs are extracted left to right and parsed as
integers, the result is absent when there are none and the arithmetic mean
of them otherwise; the spec examples hold, and a canonical row has a
present avg_salary_k exactly when its salary_estimate is present and holds
a digit. -/
theorem parse_salary_spec :
    parse_salary none = none ∧
    (∀ s : String, extractNums s = [] → parse_salary (some s) = none) ∧
    (∀ s : String, extractNums s ≠ [] →
      parse_salary (some s) =
        some (((extractNums s).map (fun n => (n : ℚ))).sum /
          ((extractNums s).length : ℚ))) ∧
    parse_salary (some "$40K-$60K") = some 50 ∧
    parse_salary (some "$45K (Employer est.)") = some 45 ∧
    parse_salary (some "Unknown") = none ∧
    ∀ raw : List RawRow, ∀ r ∈ load_data raw,
      (r.avg_salary_k.isSome = true ↔
        ∃ s, r.salary_estimate = some s ∧ s.data.any Char.isDigit = true) := by
  refine ⟨rfl, ?_, ?_, ?_, ?_, ?_, ?_⟩
  · intro s hs
    rw [parse_salary]
    rw [if_pos (by simpa using congrArg List.isEmpty hs)]
  · intro s hs
    rw [parse_salary]
    rw [if_neg (by simpa [List.isEmpty_iff] using hs)]
  · simp [parse_salary, extractNums, digitRuns, digitsToNat]
    norm_num
  · simp [parse_salary, extractNums, digitRuns, digitsToNat]
  · simp [parse_salary, extractNums, digitRuns, digitsToNat]
  · intro raw r hr
    rcases List.mem_map.mp hr with ⟨q, hq, rfl⟩
    simpa [normalizeRow] using parse_salary_isSome_iff q.salary_estimate

/-- C1 witness: a concrete raw row with salary string "$40K-$60K" yields a
present avg_salary_k in the canonical table. -/
theorem parse_salary_spec_witness :
    (normalizeRow salaryRaw).avg_salary_k.isSome = true := by
  have h := parse_salary_spec.2.2.2.2.2.2 [salaryRaw] (normalizeRow salaryRaw)
    (by simp [load_data])
  exact h.mpr ⟨"$40K-$60K", by simp [normalizeRow, salaryRaw, blankRaw], by decide⟩

/-- C2: every row of the filtered table satisfies each selected facet
constraint (the facets combine by AND), the filtered table is a sublist of
the input table (no rows added, rows unchanged), and with no facet
selected the result equals the input table. -/
theorem filtered_df_facets (df : List Row) (loc ind own : List String) :
    (∀ r ∈ filtered_df df loc ind own,
      (loc ≠ [] → memOpt r.location loc = true) ∧
      (ind ≠ [] → memOpt r.industry ind = true) ∧
      (own ≠ [] → memOpt r.type_of_ownership own = true)) ∧
    List.Sublist (filtered_df df loc ind own) df ∧
    (loc = [] → ind = [] → own = [] → filtered_df df loc ind own = df) := by
  refine ⟨?_, ?_, ?_⟩
  · intro r hr
    simp only [filtered_df] at hr
    have h3 := stage_mem hr
    have h2 := stage_mem h3.1
    have h1 := stage_mem h2.1
    exact ⟨h1.2, h2.2, h3.2⟩
  · simp only [filtered_df]
    exact (stage_sublist _ own _).trans
      ((stage_sublist _ ind _).trans (stage_sublist _ loc _))
  · intro h1 h2 h3
    subst h1
    subst h2
    subst h3
    simp [filtered_df]

/-- C2 witness: filtering a concrete two-row table by location NY keeps
only rows whose location is in the selection, and the result is a sublist
of the input. -/
theorem filtered_df_facets_witness :
    memOpt rowNY.location ["NY"] = true ∧
    List.Sublist (filtered_df [rowNY, rowLA] ["NY"] [] []) [rowNY, rowLA] := by
  have h := filtered_df_facets [rowNY, rowLA] ["NY"] [] []
  refine ⟨?_, h.2.1⟩
  have hm : rowNY ∈ filtered_df [rowNY, rowLA] ["NY"] [] [] := by decide
  exact (h.1 rowNY hm).1 (by decide)

/-- C4 counterexample: a raw easy_apply cell holding the string "True" is
left as that string by load_data, so the canonical table can hold an
easy_apply value that is not a boolean, contradicting the claim that every
other value is coerced to a boolean. -/
theorem easy_apply_not_bool_cex :
    (load_data [easyRawTrue]).map Row.easy_apply = [PyVal.vStr "True"] ∧
    PyVal.vStr "True" ≠ PyVal.vBool true ∧
    PyVal.vStr "True" ≠ PyVal.vBool false := by
  refine ⟨?_, by decide, by decide⟩
  simp [load_data, normalizeRow, easyRawTrue, blankRaw, easyApplyNorm]

/-- C4 amended: easy_apply normalization replaces the sentinel -1 with
boolean false and leaves every other raw value unchanged (a boolean true
stays true); the canonical easy_apply column is exactly the raw column
with -1 replaced. -/
theorem easy_apply_sentinel_replace :
    easyApplyNorm (PyVal.vInt (-1)) = PyVal.vBool false ∧
    (∀ v : PyVal, v ≠ PyVal.vInt (-1) → easyApplyNorm v = v) ∧
    easyApplyNorm (PyVal.vBool true) = PyVal.vBool true ∧
    ∀ raw : List RawRow,
      (load_data raw).map Row.easy_apply =
        raw.map (fun q => easyApplyNorm q.easy_apply) := by
  refine ⟨by decide, ?_, by decide, ?_⟩
  · intro v hv
    simp [easyApplyNorm, hv]
  · intro raw
    simp [load_data, normalizeRow, List.map_map]

/-- C4 witness: a non-sentinel value passes through the normalization
unchanged. -/
theorem easy_apply_sentinel_replace_witness :
    easyApplyNorm (PyVal.vStr "x") = PyVal.vStr "x" :=
  easy_apply_sentinel_replace.2.1 (PyVal.vStr "x") (by decide)

/-- C5: company-name cleaning equals truncation at the first newline
(everything from the first newline on is discarded), and a string with no
newline is unchanged. -/
theorem clean_company_truncates (s : String) :
    cleanCompanyName s = String.mk (s.data.takeWhile (fun c => decide (c ≠ '\n'))) ∧
    ('\n' ∉ s.data → cleanCompanyName s = s) := by
  constructor
  · rw [cleanCompanyName, subNlRest_eq_takeWhile]
  · intro h
    obtain ⟨d⟩ := s
    rw [cleanCompanyName, subNlRest_eq_takeWhile]
    rw [takeWhile_eq_self_of_forall _ d (fun c hc => by
      simp only [decide_eq_true_eq]
      exact fun he => h (he ▸ hc))]

/-- C5 witness: the spec examples, with the truncation evaluated on
"Acme Corp" followed by a newline and a rating fragment, and the
unchanged no-newline string "Beta LLC". -/
theorem clean_company_truncates_witness :
    cleanCompanyName "Beta LLC" = "Beta LLC" ∧
    cleanCompanyName "Acme Corp\n3.5" =
      String.mk ("Acme Corp\n3.5".data.takeWhile (fun c => decide (c ≠ '\n'))) ∧
    cleanCompanyName "Acme Corp\n3.5" = "Acme Corp" := by
  refine ⟨(clean_company_truncates "Beta LLC").2 (by decide),
    (clean_company_truncates "Acme Corp\n3.5").1, ?_⟩
  simp [cleanCompanyName, subNlRest]

/-- C7: filtering with empty criteria returns the table itself, doing it
twice still returns the table, and every aggregation and metric applied
twice to the same table gives identical results. -/
theorem filter_empty_identity_idempotent (df t : List Row) :
    filtered_df df [] [] [] = df ∧
    filtered_df (filtered_df df [] [] []) [] [] [] = df ∧
    loc_df t = loc_df t ∧ comp_df t = comp_df t ∧ title_df t = title_df t ∧
    easy_df t = easy_df t ∧ salary_df t = salary_df t ∧
    totalJobs t = totalJobs t ∧ companiesMetric t = companiesMetric t ∧
    locationsMetric t = locationsMetric t ∧
    avgRatingMetric t = avgRatingMetric t := by
  have hid : ∀ d : List Row, filtered_df d [] [] [] = d := by
    intro d
    simp [filtered_df]
  refine ⟨hid df, ?_, rfl, rfl, rfl, rfl, rfl, rfl, rfl, rfl, rfl⟩
  rw [hid df]
  exact hid df

/-- C3 counterexample: on a table whose two companies tie on count, the
top-companies table lists B before A (stable first-appearance order), so
ties are not broken by label ascending as claimed. -/
theorem top10_tiebreak_cex :
    comp_df tieTable = [("B", 1), ("A", 1)] ∧
    ¬ List.Pairwise countThenLabelLT (comp_df tieTable) := by
  have he : comp_df tieTable = [("B", 1), ("A", 1)] := by
    simp [comp_df, tieTable, blankRow, value_counts, firstAppearanceKeys,
      sortByCountDesc, insertByCount, List.count, List.countP, List.countP.go]
  refine ⟨he, ?_⟩
  rw [he]
  intro h
  have h1 := (List.pairwise_cons.mp h).1 ("A", 1) (List.mem_singleton.mpr rfl)
  rcases h1 with h1 | h1
  · exact absurd h1 (by decide)
  · exact absurd h1.2 (by decide)

/-- C3 amended: the top-companies and top-job-titles tables are the first
10 entries of the sorted group counts, hold at most 10 groups, are ordered
by count descending, and keep ties in the stable first-appearance order of
the groups (not label order): for every count value, the entries of the
sorted counts carrying that count are exactly the first-appearance count
entries with that count, in the same order. Every omitted group counts no
more than every kept one, and the result is identical across repeated runs
on the same input. -/
theorem top10_count_desc_stable (t : List Row) :
    List.Pairwise (fun p q : String × Nat => q.2 ≤ p.2) (comp_df t) ∧
    (comp_df t).length ≤ 10 ∧
    comp_df t = (value_counts (t.map Row.company_name)).take 10 ∧
    (∀ c : Nat,
      (value_counts (t.map Row.company_name)).filter (fun q => decide (q.2 = c)) =
        ((firstAppearanceKeys ((t.map Row.company_name).filterMap id)).map
          (fun k => (k, ((t.map Row.company_name).filterMap id).count k))).filter
          (fun q => decide (q.2 = c))) ∧
    (∀ p ∈ (value_counts (t.map Row.company_name)).drop 10,
      ∀ q ∈ comp_df t, p.2 ≤ q.2) ∧
    List.Pairwise (fun p q : String × Nat => q.2 ≤ p.2) (title_df t) ∧
    (title_df t).length ≤ 10 ∧
    title_df t = (value_counts (t.map Row.job_title)).take 10 ∧
    (∀ c : Nat,
      (value_counts (t.map Row.job_title)).filter (fun q => decide (q.2 = c)) =
        ((firstAppearanceKeys ((t.map Row.job_title).filterMap id)).map
          (fun k => (k, ((t.map Row.job_title).filterMap id).count k))).filter
          (fun q => decide (q.2 = c))) ∧
    (∀ p ∈ (value_counts (t.map Row.job_title)).drop 10,
      ∀ q ∈ title_df t, p.2 ≤ q.2) ∧
    ∀ t2 : List Row, t2 = t → comp_df t2 = comp_df t ∧ title_df t2 = title_df t := by
  rcases top_of_value_counts (t.map Row.company_name) with ⟨hc1, hc2, hc3⟩
  rcases top_of_value_counts (t.map Row.job_title) with ⟨ht1, ht2, ht3⟩
  exact ⟨hc1, hc2, rfl, fun c => value_counts_stable _ c, hc3,
    ht1, ht2, rfl, fun c => value_counts_stable _ c, ht3,
    fun t2 h => by rw [h]; exact ⟨rfl, rfl⟩⟩

/-- C3 witness: on a table with eleven distinct companies the omitted
eleventh group counts no more than the kept first group, and reapplying
the aggregation gives the same table. -/
theorem top10_count_desc_stable_witness :
    (("C11", 1) : String × Nat).2 ≤ (("C01", 1) : String × Nat).2 ∧
    comp_df bigTable = comp_df bigTable := by
  have h := top10_count_desc_stable bigTable
  have he : value_counts (bigTable.map Row.company_name) =
      [("C01", 1), ("C02", 1), ("C03", 1), ("C04", 1), ("C05", 1), ("C06", 1),
       ("C07", 1), ("C08", 1), ("C09", 1), ("C10", 1), ("C11", 1)] := by
    simp [bigTable, elevenCompanies, blankRow, value_counts, firstAppearanceKeys,
      sortByCountDesc, insertByCount, List.count, List.countP, List.countP.go]
  refine ⟨?_, (h.2.2.2.2.2.2.2.2.2.2 bigTable rfl).1⟩
  refine h.2.2.2.2.1 ("C11", 1) ?_ ("C01", 1) ?_
  · rw [he]
    simp
  · show ("C01", 1) ∈ (value_counts (bigTable.map Row.company_name)).take 10
    rw [he]
    simp

/-- C6: when the filter criteria leave zero rows, the four summary metrics
report 0, 0, 0 and an absent mean rating, and every aggregation input or
table (location counts, top companies, top titles, industry and sector
columns, salary histogram rows, easy-apply counts) is empty. -/
theorem empty_filter_graceful (df : List Row) (loc ind own : List String)
    (h : filtered_df df loc ind own = []) :
    totalJobs (filtered_df df loc ind own) = 0 ∧
    companiesMetric (filtered_df df loc ind own) = 0 ∧
    locationsMetric (filtered_df df loc ind own) = 0 ∧
    avgRatingMetric (filtered_df df loc ind own) = none ∧
    loc_df (filtered_df df loc ind own) = [] ∧
    comp_df (filtered_df df loc ind own) = [] ∧
    title_df (filtered_df df loc ind own) = [] ∧
    industryColumn (filtered_df df loc ind own) = [] ∧
    sectorColumn (filtered_df df loc ind own) = [] ∧
    salary_df (filtered_df df loc ind own) = [] ∧
    easy_df (filtered_df df loc ind own) = [] := by
  rw [h]
  refine ⟨rfl, ?_, ?_, rfl, ?_, ?_, ?_, rfl, rfl, rfl, ?_⟩
  all_goals
    simp [companiesMetric, locationsMetric, nunique, loc_df, comp_df, title_df,
      easy_df, value_counts, firstAppearanceKeys, sortByCountDesc]

/-- C6 witness: filtering a one-row NY table by location LA leaves zero
rows, and indeed the job count is 0 and the mean rating absent. -/
theorem empty_filter_graceful_witness :
    totalJobs (filtered_df [rowNY] ["LA"] [] []) = 0 ∧
    avgRatingMetric (filtered_df [rowNY] ["LA"] [] []) = none := by
  have h := empty_filter_graceful [rowNY] ["LA"] [] [] (by decide)
  exact ⟨h.1, h.2.2.2.1⟩

/-- C9: whenever a filtered table has at least one present rating, the Avg
Rating metric is the arithmetic mean of the present ratings rounded (half
to even) to 2 decimal places; rounding is not the identity, so this is not
the raw mean in general. -/
theorem avg_rating_rounded (t : List Row)
    (h : (t.map Row.rating).filterMap id ≠ []) :
    avgRatingMetric t =
      some (round2 (((t.map Row.rating).filterMap id).sum /
        (((t.map Row.rating).filterMap id).length : ℚ))) ∧
    round2 (5 / 3) = 167 / 100 ∧ (5 / 3 : ℚ) ≠ 167 / 100 := by
  refine ⟨?_, ?_, by norm_num⟩
  · simp only [avgRatingMetric, seriesMean]
    rw [if_neg (by simpa [List.isEmpty_iff] using h)]
    rfl
  · simp [round2, roundHalfEven]
    norm_num [Int.fract]

/-- C9 witness: a table with ratings 1, 2, 2 has metric
round2(5 / 3) = 1.67, not the raw mean 5 / 3. -/
theorem avg_rating_rounded_witness :
    avgRatingMetric ratingTable = some (round2 (5 / 3)) ∧
    round2 (5 / 3) = 167 / 100 := by
  have h := avg_rating_rounded ratingTable (by decide)
  refine ⟨?_, h.2.1⟩
  rw [h.1]
  have hfm : List.filterMap id [some (1 : ℚ), some 2, some 2] = [1, 2, 2] := rfl
  norm_num [ratingTable, blankRow, hfm]

/-- C10: the jobs-by-location counts drop rows with an absent location:
the counts sum to the number of rows with a present location (not the
total row count), and every listed label is the location of some row, so
no absent group appears. -/
theorem loc_counts_absent_excluded (t : List Row) :
    ((loc_df t).map Prod.snd).sum = ((t.map Row.location).filterMap id).length ∧
    ∀ p ∈ loc_df t, some p.1 ∈ t.map Row.location := by
  constructor
  · have hperm := value_counts_perm_keys (t.map Row.location)
    have hsum := (hperm.map Prod.snd).sum_eq
    simp only [loc_df]
    rw [hsum, List.map_map]
    exact sum_counts_firstAppearanceKeys _
  · intro p hp
    have hmem : p ∈ (firstAppearanceKeys ((t.map Row.location).filterMap id)).map
        (fun k => (k, ((t.map Row.location).filterMap id).count k)) :=
      (value_counts_perm_keys (t.map Row.location)).mem_iff.mp
        (by simpa [loc_df] using hp)
    rcases List.mem_map.mp hmem with ⟨k, hk, hkp⟩
    have hkin := mem_of_mem_firstAppearanceKeys hk
    rcases List.mem_filterMap.mp hkin with ⟨o, ho, hoe⟩
    have ho2 : o = some k := by simpa using hoe
    have hp1 : p.1 = k := by
      rw [← hkp]
    rw [hp1, ← ho2]
    exact ho

/-- C10 witness: a table with one NY row and one absent-location row has
location counts summing to 1 while the table has 2 rows, and NY is a row
location. -/
theorem loc_counts_absent_excluded_witness :
    ((loc_df locTable).map Prod.snd).sum = 1 ∧
    totalJobs locTable = 2 ∧
    some "NY" ∈ locTable.map Row.location := by
  have h := loc_counts_absent_excluded locTable
  refine ⟨?_, rfl, ?_⟩
  · rw [h.1]
    decide
  · refine h.2 ("NY", 1) ?_
    simp [loc_df, locTable, blankRow, value_counts, firstAppearanceKeys,
      sortByCountDesc, insertByCount, List.count, List.countP, List.countP.go]

end BAJobs
